import Mathlib

/-!
Verification of the event-triggered image annotation pipeline in
`src/main.go`: an AWS Lambda handler that, for each S3 notification record,
classifies the object key by extension, fetches the object, decodes it,
stamps the constant label "This is watermark" at a position chosen from the
image bounds, re-encodes it in the format implied by the extension, and
stores the result under `labeled-images/<basename>`.

The Go functions are embedded shallowly: `handleImage` becomes a pure
function from an environment of external collaborators (S3 get/put, codecs,
font rasterizer) and one record to the list of storage effects it performs
together with an outcome (`log.Fatalf` terminates the whole process, which
is modelled as `Outcome.fatal`).
-/

set_option maxHeartbeats 1000000

namespace LambdaWatermark

/-- RGBA color with one byte per channel, as in the Go `color.RGBA` struct. -/
structure RGBA where
  r : Nat
  g : Nat
  b : Nat
  a : Nat
deriving DecidableEq, Repr

/-- The constant foreground color `color.RGBA{255, 0, 0, 255}` built in
`addLabel` (src/main.go line 37): opaque red. -/
def red : RGBA := ⟨255, 0, 0, 255⟩

/-- A decoded in-memory raster image. The registered jpeg and png decoders
behind `image.Decode` always return bounds anchored at the origin, so an
image is a width, a height and a pixel function; `Bounds().Max.X` is `width`
and `Bounds().Max.Y` is `height`. -/
structure Image where
  width : Nat
  height : Nat
  pix : Nat → Nat → RGBA

/-- The Go conversion `fixed.Int26_6(x * 64)` (src/main.go line 39):
`fixed.Int26_6` is an `int32`, so the 64-bit product is truncated to a
signed 32-bit value, two-complement style. -/
def int26of (x : Int) : Int := (x * 64 + 2 ^ 31) % 2 ^ 32 - 2 ^ 31

/-- Modelled from the spec: the bitmap font face `basicfont.Face7x13` and the
rasterization done by `font.Drawer.DrawString` live in the external
`golang.org/x/image` library, not in this repository. A face is modelled by
its glyph coverage: which destination pixels the rendered label, anchored at
the fixed-point dot, covers. `basicfont` glyph masks are binary (alpha 0 or
255), so drawing with the `Over` operator either replaces a destination
pixel entirely with the source color or leaves it untouched. -/
structure FontFace where
  covers : String → Int → Int → Nat → Nat → Bool

/-- `addLabel` (src/main.go lines 31-52): allocate a fresh RGBA image with
the bounds of `img`, copy every pixel of `img` into it (`draw.Draw` with
`draw.Src` and zero source offset), then draw `label` in `red` with the
drawer anchored at dot `(fixed.Int26_6(x*64), fixed.Int26_6(y*64))`. -/
def addLabel (face : FontFace) (img : Image) (x y : Int) (label : String) : Image :=
  { width := img.width
    height := img.height
    pix := fun px py =>
      if face.covers label (int26of x) (int26of y) px py then red
      else img.pix px py }

/-- Go `strings.ToLower`, applied character by character (ASCII folding,
which is what matters for the extension suffixes involved). -/
def toLowerStr (s : String) : String := ⟨s.data.map Char.toLower⟩

/-- Go `strings.HasSuffix s post`. -/
def hasSuffix (s post : String) : Bool := post.data.isSuffixOf s.data

/-- Go slicing `s[1:]` as used on the extension literals (all ASCII). -/
def sliceFrom1 (s : String) : String := ⟨s.data.drop 1⟩

/-- The supported extension list of `isImageFile` (src/main.go line 56). -/
def supportedExtensions : List String := [".jpg", ".jpeg", ".png"]

/-- `isImageFile` (src/main.go lines 54-63): return `(true, ext[1:])` for the
first listed extension that is a suffix of the lowercased key, else
`(false, "")`. -/
def isImageFile (key : String) : Bool × String :=
  match supportedExtensions.find? (fun ext => hasSuffix (toLowerStr key) ext) with
  | some ext => (true, sliceFrom1 ext)
  | none => (false, "")

/-- Go `path.Base` (used at src/main.go line 120): empty path gives ".";
trailing slashes are stripped; the segment after the last slash remains; a
path of only slashes gives "/". -/
def pathBase (p : String) : String :=
  if p.data = [] then "."
  else
    let q := (p.data.reverse.dropWhile (fun c => c = '/')).reverse
    if q = [] then "/"
    else ⟨(q.reverse.takeWhile (fun c => c ≠ '/')).reverse⟩

/-- Object bodies, as abstract byte lists. -/
abbrev Bytes := List Nat

/-- One S3 event record, reduced to the fields `handleImage` reads
(src/main.go lines 67-69). -/
structure S3Record where
  bucket : String
  key : String
deriving DecidableEq, Repr

/-- The external collaborators of one worker: the S3 client (get and put),
`image.Decode` (returning the decoded image and the sniffed format name),
the two encoders, and the font face. `none` from a collaborator is the
error case. -/
structure Env where
  getObject : String → String → Option Bytes
  decode : Bytes → Option (Image × String)
  face : FontFace
  pngEncode : Image → Option Bytes
  jpegEncode : Image → Option Bytes
  putObject : String → String → Bytes → String → Option Unit

/-- A storage effect performed by a worker: a `GetObject` or a `PutObject`
call, with the arguments the source passes. -/
inductive Effect where
  | fetch (bucket key : String)
  | store (bucket key : String) (body : Bytes) (contentType : String)
deriving DecidableEq, Repr

/-- Whether an effect is a `PutObject` call. -/
def Effect.isStore : Effect → Bool
  | .store _ _ _ _ => true
  | .fetch _ _ => false

/-- How a worker ends: `done` models a plain return, `fatal` models
`log.Fatalf`, which terminates the entire process. -/
inductive Outcome where
  | done
  | fatal
deriving DecidableEq, Repr

/-- The encode switch (src/main.go lines 103-116): `buf` starts empty;
`"png"` is encoded with `png.Encode` and `"jpeg"` or `"jpg"` with
`jpeg.Encode`, an encoder error being fatal (`none` here); any other
extension matches no case, so the switch leaves `buf` empty and control
falls through with no error. -/
def encodeStep (env : Env) (ext : String) (img : Image) : Option Bytes :=
  match ext with
  | "png" => env.pngEncode img
  | "jpeg" => env.jpegEncode img
  | "jpg" => env.jpegEncode img
  | _ => some []

/-- The placement policy plus annotator call (src/main.go lines 93-101):
if `bounds.Max.X < 20 && bounds.Max.Y < 20` the label is added at `(0, 0)`,
otherwise at `(20, 20)`, always with the constant text "This is watermark". -/
def labelImage (face : FontFace) (img : Image) : Image :=
  if img.width < 20 ∧ img.height < 20 then
    addLabel face img 0 0 "This is watermark"
  else
    addLabel face img 20 20 "This is watermark"

/-- `handleImage` (src/main.go lines 65-128) as the trace of storage effects
one worker performs for its record, plus its outcome. Unsupported keys
return immediately; a failed get, decode or encode calls `log.Fatalf`
(`Outcome.fatal`); otherwise the annotated, re-encoded image is stored at
`labeled-images/<basename(key)>` with content type `image/<ext>`, and a
failed put is again fatal. -/
def handleImage (env : Env) (r : S3Record) : List Effect × Outcome :=
  match isImageFile r.key with
  | (isImage, ext) =>
    if isImage = false then ([], .done)
    else
      match env.getObject r.bucket r.key with
      | none => ([.fetch r.bucket r.key], .fatal)
      | some body =>
        match env.decode body with
        | none => ([.fetch r.bucket r.key], .fatal)
        | some (img, _fmt) =>
          match encodeStep env ext (labelImage env.face img) with
          | none => ([.fetch r.bucket r.key], .fatal)
          | some buf =>
            let outKey := "labeled-images/" ++ pathBase r.key
            let ct := "image/" ++ ext
            match env.putObject r.bucket outKey buf ct with
            | none => ([.fetch r.bucket r.key, .store r.bucket outKey buf ct], .fatal)
            | some _ => ([.fetch r.bucket r.key, .store r.bucket outKey buf ct], .done)

/-- `env` with the format name reported by `image.Decode` replaced by `f`.
The source discards that component (`img, _, err := image.Decode(...)`,
src/main.go line 88), which is what the independence theorem exercises. -/
def withFormat (env : Env) (f : String) : Env :=
  { env with decode := fun b => (env.decode b).map (fun p => (p.1, f)) }

/-! ### Concrete fixtures used by the witness theorems -/

/-- A concrete font face covering exactly the pixel `(1, 1)`. -/
def faceW : FontFace := ⟨fun _ _ _ px py => px == 1 && py == 1⟩

/-- A concrete 10 by 10 image with constant pixels. -/
def imgW : Image := ⟨10, 10, fun _ _ => ⟨1, 2, 3, 255⟩⟩

/-- A concrete environment in which every collaborator succeeds. -/
def envW : Env :=
  { getObject := fun _ _ => some [1]
    decode := fun _ => some (imgW, "png")
    face := faceW
    pngEncode := fun _ => some [7, 7]
    jpegEncode := fun _ => some [8]
    putObject := fun _ _ _ _ => some () }

/-- `envW` with a failing `GetObject`. -/
def envFail : Env := { envW with getObject := fun _ _ => none }

/-- A concrete record naming a supported png key. -/
def recW : S3Record := ⟨"bkt", "photos/cat.PNG"⟩

/-! ### Suffix exclusivity helper for the classifier -/

/-- Two suffixes of one string are ordered; if the shorter is not a suffix of
the longer, a string cannot end in both. -/
theorem hasSuffix_excl {s a b : String}
    (hle : a.data.length ≤ b.data.length)
    (hnot : a.data.isSuffixOf b.data = false)
    (ha : hasSuffix s a = true) (hb : hasSuffix s b = true) : False := by
  rw [hasSuffix, List.isSuffixOf_iff_suffix] at ha hb
  have h := List.suffix_of_suffix_length_le ha hb hle
  rw [← List.isSuffixOf_iff_suffix] at h
  rw [hnot] at h
  exact Bool.false_ne_true h

/-! ### Claims -/

/-- C1: for every decoded image with both width and height strictly below 20
the placement policy anchors at `(0, 0)`, otherwise at `(20, 20)`, and the
annotator `addLabel` is called with exactly that anchor and the constant
label "This is watermark". -/
theorem placement_policy (face : FontFace) (img : Image) :
    (img.width < 20 ∧ img.height < 20 →
      labelImage face img = addLabel face img 0 0 "This is watermark") ∧
    (20 ≤ img.width ∨ 20 ≤ img.height →
      labelImage face img = addLabel face img 20 20 "This is watermark") := by
  constructor
  · intro h
    simp [labelImage, h]
  · intro h
    have hn : ¬(img.width < 20 ∧ img.height < 20) := by
      rcases h with h | h <;> omega
    simp [labelImage, hn]

/-- Witness for C1 at the 10 by 10 image `imgW`. -/
theorem placement_policy_witness :
    labelImage faceW imgW = addLabel faceW imgW 0 0 "This is watermark" :=
  (placement_policy faceW imgW).1 (by decide)

/-- C2: classification succeeds exactly on keys ending case-insensitively in
".jpg", ".jpeg" or ".png", returning the matched extension lowercased and
without its dot, and returns `(false, "")` on every other key. -/
theorem classify_key (key : String) :
    ((isImageFile key).1 = true ↔
      (hasSuffix (toLowerStr key) ".jpg" = true ∨
       hasSuffix (toLowerStr key) ".jpeg" = true ∨
       hasSuffix (toLowerStr key) ".png" = true)) ∧
    (hasSuffix (toLowerStr key) ".jpg" = true → isImageFile key = (true, "jpg")) ∧
    (hasSuffix (toLowerStr key) ".jpeg" = true → isImageFile key = (true, "jpeg")) ∧
    (hasSuffix (toLowerStr key) ".png" = true → isImageFile key = (true, "png")) ∧
    ((isImageFile key).1 = false → isImageFile key = (false, "")) := by
  refine ⟨?_, ?_, ?_, ?_, ?_⟩
  · cases h1 : hasSuffix (toLowerStr key) ".jpg" <;>
      cases h2 : hasSuffix (toLowerStr key) ".jpeg" <;>
        cases h3 : hasSuffix (toLowerStr key) ".png" <;>
          simp [isImageFile, supportedExtensions, List.find?, h1, h2, h3]
  · intro h
    simp [isImageFile, supportedExtensions, List.find?, h]
    decide
  · intro h
    have h1 : hasSuffix (toLowerStr key) ".jpg" = false := by
      cases hc : hasSuffix (toLowerStr key) ".jpg" with
      | false => rfl
      | true => exact (hasSuffix_excl (by decide) (by decide) hc h).elim
    simp [isImageFile, supportedExtensions, List.find?, h1, h]
    decide
  · intro h
    have h1 : hasSuffix (toLowerStr key) ".jpg" = false := by
      cases hc : hasSuffix (toLowerStr key) ".jpg" with
      | false => rfl
      | true => exact (hasSuffix_excl (by decide) (by decide) hc h).elim
    have h2 : hasSuffix (toLowerStr key) ".jpeg" = false := by
      cases hc : hasSuffix (toLowerStr key) ".jpeg" with
      | false => rfl
      | true => exact (hasSuffix_excl (by decide) (by decide) h hc).elim
    simp [isImageFile, supportedExtensions, List.find?, h1, h2, h]
    decide
  · intro h
    cases hf : supportedExtensions.find? (fun ext => hasSuffix (toLowerStr key) ext) with
    | none => simp [isImageFile, hf]
    | some e => simp [isImageFile, hf] at h

/-- Witness for C2: the key "photos/cat.PNG" classifies as a png. -/
theorem classify_key_witness : isImageFile "photos/cat.PNG" = (true, "png") :=
  (classify_key "photos/cat.PNG").2.2.2.1 (by decide)

/-- C3 (code behavior at the failing input): on an extension outside the
three supported values the encode switch matches no case and falls through,
so the step succeeds with an empty buffer instead of failing with an encode
error — the latent bug the spec flags. -/
theorem encode_unsupported_noop (env : Env) (img : Image) :
    encodeStep env "gif" img = some [] := rfl

/-- C6: `addLabel` returns an image with the bounds of its input in which
every glyph-covered pixel is the constant opaque red and every other pixel
equals the corresponding input pixel; the input image, a pure value here, is
untouched. -/
theorem annotate_frame (face : FontFace) (img : Image) (x y : Int) (label : String) :
    (addLabel face img x y label).width = img.width ∧
    (addLabel face img x y label).height = img.height ∧
    (∀ px py, face.covers label (int26of x) (int26of y) px py = true →
      (addLabel face img x y label).pix px py = red) ∧
    (∀ px py, face.covers label (int26of x) (int26of y) px py = false →
      (addLabel face img x y label).pix px py = img.pix px py) := by
  refine ⟨rfl, rfl, ?_, ?_⟩ <;> intro px py h <;> simp [addLabel, h]

/-- Witness for C6: with the face covering exactly `(1, 1)`, that pixel is
painted red and pixel `(0, 0)` keeps the input value. -/
theorem annotate_frame_witness :
    (addLabel faceW imgW 0 0 "This is watermark").pix 1 1 = red ∧
    (addLabel faceW imgW 0 0 "This is watermark").pix 0 0 = imgW.pix 0 0 :=
  ⟨(annotate_frame faceW imgW 0 0 "This is watermark").2.2.1 1 1 (by decide),
   (annotate_frame faceW imgW 0 0 "This is watermark").2.2.2 0 0 (by decide)⟩

/-- C7: a record whose key is not classified as a supported image is skipped
silently: no fetch, no store, no error. -/
theorem skip_unsupported (env : Env) (r : S3Record)
    (h : (isImageFile r.key).1 = false) :
    handleImage env r = ([], Outcome.done) := by
  cases hc : isImageFile r.key with
  | mk b ext =>
    rw [hc] at h
    simp only at h
    subst h
    simp [handleImage, hc]

/-- Witness for C7: the key "docs/readme.txt" is skipped. -/
theorem skip_unsupported_witness :
    handleImage envW ⟨"bkt", "docs/readme.txt"⟩ = ([], Outcome.done) :=
  skip_unsupported envW ⟨"bkt", "docs/readme.txt"⟩ (by decide)

/-- C4: a record with a supported key that completes the pipeline stores
exactly one object, in the same bucket, under
`"labeled-images/" ++ basename(key)` with the basename taken verbatim, with
content type `"image/" ++ ext` where `ext` is the classifier output
(so "jpg" stays "jpg"). -/
theorem output_object (env : Env) (r : S3Record) (ext : String) (body : Bytes)
    (img : Image) (fmt : String) (buf : Bytes)
    (hcls : isImageFile r.key = (true, ext))
    (hget : env.getObject r.bucket r.key = some body)
    (hdec : env.decode body = some (img, fmt))
    (henc : encodeStep env ext (labelImage env.face img) = some buf)
    (hput : env.putObject r.bucket ("labeled-images/" ++ pathBase r.key) buf
      ("image/" ++ ext) = some ()) :
    handleImage env r =
      ([Effect.fetch r.bucket r.key,
        Effect.store r.bucket ("labeled-images/" ++ pathBase r.key) buf
          ("image/" ++ ext)], Outcome.done) := by
  simp [handleImage, hcls, hget, hdec, henc, hput]

/-- Witness for C4: bucket "bkt", key "photos/cat.PNG" yields one store at
"labeled-images/cat.PNG" with content type "image/png". -/
theorem output_object_witness :
    handleImage envW recW =
      ([Effect.fetch "bkt" "photos/cat.PNG",
        Effect.store "bkt" "labeled-images/cat.PNG" [7, 7] "image/png"],
       Outcome.done) :=
  (output_object envW recW "png" [1] imgW "png" [7, 7]
    (by decide) rfl rfl (by decide) rfl).trans (by decide)

/-- Replacing the sniffed format name leaves the fetch collaborator alone. -/
theorem withFormat_getObject (env : Env) (f : String) :
    (withFormat env f).getObject = env.getObject := rfl

/-- Replacing the sniffed format name wraps only the decode result. -/
theorem withFormat_decode (env : Env) (f : String) (b : Bytes) :
    (withFormat env f).decode b = (env.decode b).map (fun p => (p.1, f)) := rfl

/-- Replacing the sniffed format name leaves the font face alone. -/
theorem withFormat_face (env : Env) (f : String) :
    (withFormat env f).face = env.face := rfl

/-- Replacing the sniffed format name leaves the store collaborator alone. -/
theorem withFormat_putObject (env : Env) (f : String) :
    (withFormat env f).putObject = env.putObject := rfl

/-- The encode switch reads only the two encoders, which `withFormat` keeps. -/
theorem encodeStep_withFormat (env : Env) (f ext : String) (img : Image) :
    encodeStep (withFormat env f) ext img = encodeStep env ext img := rfl

/-- C5: the output codec depends only on the extension the classifier took
from the key — `"png"` goes to the png encoder and `"jpeg"` or `"jpg"` to
the jpeg encoder — and the whole worker is independent of the format name
that byte-level sniffing reports during decode, which the source discards. -/
theorem codec_from_extension (env : Env) (f : String) (r : S3Record) (img : Image) :
    handleImage (withFormat env f) r = handleImage env r ∧
    encodeStep env "png" img = env.pngEncode img ∧
    encodeStep env "jpeg" img = env.jpegEncode img ∧
    encodeStep env "jpg" img = env.jpegEncode img := by
  refine ⟨?_, rfl, rfl, rfl⟩
  cases hc : isImageFile r.key with
  | mk isImage ext =>
    cases isImage with
    | false => simp [handleImage, hc]
    | true =>
      cases hg : env.getObject r.bucket r.key with
      | none =>
        simp [handleImage, hc, withFormat_getObject, hg]
      | some body =>
        cases hd : env.decode body with
        | none =>
          simp [handleImage, hc, withFormat_getObject, hg, withFormat_decode, hd]
        | some p =>
          obtain ⟨img2, fmt⟩ := p
          simp [handleImage, hc, withFormat_getObject, hg, withFormat_decode, hd,
            withFormat_face, withFormat_putObject, encodeStep_withFormat]

/-- C8: for a supported record, a failed fetch or a failed decode is fatal
(the process terminates, nothing is returned) and performs no store; a store
effect only ever happens after fetch, decode and encode all succeeded, with
the stored body being the encoder output; and a failed put is fatal. -/
theorem failures_fatal (env : Env) (r : S3Record) :
    (∀ ext, isImageFile r.key = (true, ext) →
      env.getObject r.bucket r.key = none →
      handleImage env r = ([Effect.fetch r.bucket r.key], Outcome.fatal)) ∧
    (∀ ext body, isImageFile r.key = (true, ext) →
      env.getObject r.bucket r.key = some body →
      env.decode body = none →
      handleImage env r = ([Effect.fetch r.bucket r.key], Outcome.fatal)) ∧
    (∀ b k bd ct, Effect.store b k bd ct ∈ (handleImage env r).1 →
      ∃ ext body img fmt,
        isImageFile r.key = (true, ext) ∧
        env.getObject r.bucket r.key = some body ∧
        env.decode body = some (img, fmt) ∧
        encodeStep env ext (labelImage env.face img) = some bd) ∧
    (∀ ext body img fmt buf,
      isImageFile r.key = (true, ext) →
      env.getObject r.bucket r.key = some body →
      env.decode body = some (img, fmt) →
      encodeStep env ext (labelImage env.face img) = some buf →
      env.putObject r.bucket ("labeled-images/" ++ pathBase r.key) buf
        ("image/" ++ ext) = none →
      handleImage env r =
        ([Effect.fetch r.bucket r.key,
          Effect.store r.bucket ("labeled-images/" ++ pathBase r.key) buf
            ("image/" ++ ext)], Outcome.fatal)) := by
  refine ⟨?_, ?_, ?_, ?_⟩
  · intro ext hcls hget
    simp [handleImage, hcls, hget]
  · intro ext body hcls hget hdec
    simp [handleImage, hcls, hget, hdec]
  · intro b k bd ct hmem
    cases hc : isImageFile r.key with
    | mk isImage ext =>
      cases isImage with
      | false => simp [handleImage, hc] at hmem
      | true =>
        cases hg : env.getObject r.bucket r.key with
        | none => simp [handleImage, hc, hg] at hmem
        | some body =>
          cases hd : env.decode body with
          | none => simp [handleImage, hc, hg, hd] at hmem
          | some p =>
            obtain ⟨img, fmt⟩ := p
            cases he : encodeStep env ext (labelImage env.face img) with
            | none => simp [handleImage, hc, hg, hd, he] at hmem
            | some buf =>
              cases hp : env.putObject r.bucket ("labeled-images/" ++ pathBase r.key)
                  buf ("image/" ++ ext) with
              | none =>
                simp [handleImage, hc, hg, hd, he, hp] at hmem
                refine ⟨ext, body, img, fmt, rfl, rfl, hd, ?_⟩
                rw [hmem.2.2.1]
                exact he
              | some u =>
                simp [handleImage, hc, hg, hd, he, hp] at hmem
                refine ⟨ext, body, img, fmt, rfl, rfl, hd, ?_⟩
                rw [hmem.2.2.1]
                exact he
  · intro ext body img fmt buf hcls hget hdec henc hput
    simp [handleImage, hcls, hget, hdec, henc, hput]

/-- Witness for C8: with a failing `GetObject` the worker is fatal after the
fetch attempt, storing nothing. -/
theorem failures_fatal_witness :
    handleImage envFail recW = ([Effect.fetch "bkt" "photos/cat.PNG"], Outcome.fatal) :=
  (failures_fatal envFail recW).1 "png" (by decide) rfl

/-- C10: a worker performs at most one store per record, every store it
performs targets a key of the form `"labeled-images/" ++ rest`, and the
stored key can equal the fetched input key only when the input key itself
already is `"labeled-images/" ++ basename(input key)`, in which case the
store overwrites the input object. -/
theorem store_discipline (env : Env) (r : S3Record) :
    ((handleImage env r).1.countP (fun e => e.isStore) ≤ 1) ∧
    (∀ b k bd ct, Effect.store b k bd ct ∈ (handleImage env r).1 →
      (∃ rest, k = "labeled-images/" ++ rest) ∧
      (k = r.key → r.key = "labeled-images/" ++ pathBase r.key)) := by
  cases hc : isImageFile r.key with
  | mk isImage ext =>
    cases isImage with
    | false =>
      refine ⟨?_, ?_⟩
      · simp [handleImage, hc]
      · intro b k bd ct hmem
        simp [handleImage, hc] at hmem
    | true =>
      cases hg : env.getObject r.bucket r.key with
      | none =>
        refine ⟨?_, ?_⟩
        · simp [handleImage, hc, hg, Effect.isStore]
        · intro b k bd ct hmem
          simp [handleImage, hc, hg] at hmem
      | some body =>
        cases hd : env.decode body with
        | none =>
          refine ⟨?_, ?_⟩
          · simp [handleImage, hc, hg, hd, Effect.isStore]
          · intro b k bd ct hmem
            simp [handleImage, hc, hg, hd] at hmem
        | some p =>
          obtain ⟨img, fmt⟩ := p
          cases he : encodeStep env ext (labelImage env.face img) with
          | none =>
            refine ⟨?_, ?_⟩
            · simp [handleImage, hc, hg, hd, he, Effect.isStore]
            · intro b k bd ct hmem
              simp [handleImage, hc, hg, hd, he] at hmem
          | some buf =>
            cases hp : env.putObject r.bucket ("labeled-images/" ++ pathBase r.key)
                buf ("image/" ++ ext) with
            | none =>
              refine ⟨?_, ?_⟩
              · simp [handleImage, hc, hg, hd, he, hp, Effect.isStore]
              · intro b k bd ct hmem
                simp [handleImage, hc, hg, hd, he, hp] at hmem
                refine ⟨⟨pathBase r.key, hmem.2.1⟩, ?_⟩
                intro hk
                exact hk.symm.trans hmem.2.1
            | some u =>
              refine ⟨?_, ?_⟩
              · simp [handleImage, hc, hg, hd, he, hp, Effect.isStore]
              · intro b k bd ct hmem
                simp [handleImage, hc, hg, hd, he, hp] at hmem
                refine ⟨⟨pathBase r.key, hmem.2.1⟩, ?_⟩
                intro hk
                exact hk.symm.trans hmem.2.1

/-- Witness for C10: the store performed for "photos/cat.PNG" targets a key
under the "labeled-images/" path. -/
theorem store_discipline_witness :
    ∃ rest, "labeled-images/cat.PNG" = "labeled-images/" ++ rest :=
  ((store_discipline envW recW).2 "bkt" "labeled-images/cat.PNG" [7, 7] "image/png"
    (by decide)).1

end LambdaWatermark
